import Mathlib

/-!
Shallow embedding of the request-processing core of the `aquatic_ws`
BitTorrent tracker (src/aquatic_ws/src/lib/handler.rs) together with the
data model it operates on.  Hash maps are embedded as association lists
operated on at the first occurrence of a key, which matches the unique-key
semantics of `hashbrown::HashMap`.  Byte-array identifiers are embedded as
lists of naturals; socket addresses and WebRTC payloads are embedded as
naturals, since the handler only moves them around and compares them.
-/

namespace Aquatic

/-- Twenty-byte identifier of a swarm (torrent), embedded as a byte list. -/
structure InfoHash where
  bytes : List Nat
  deriving DecidableEq, Repr

/-- Twenty-byte identifier of a peer, chosen by the peer itself. -/
structure PeerId where
  bytes : List Nat
  deriving DecidableEq, Repr

/-- Sender address plus the routing handle naming the transport worker that
owns the connection (used for reply dispatch). -/
structure ConnectionMeta where
  out_message_consumer_id : Nat
  peer_addr : Nat
  deriving DecidableEq, Repr

/-- Announce lifecycle event, from aquatic_http_protocol/src/common.rs. -/
inductive AnnounceEvent where
  | Started
  | Stopped
  | Completed
  | Empty
  deriving DecidableEq, Repr

instance : Inhabited AnnounceEvent := ⟨AnnounceEvent.Empty⟩

/-- Status of a peer in a swarm. -/
inductive PeerStatus where
  | Seeding
  | Leeching
  | Stopped
  deriving DecidableEq, Repr

/-- Modelled from the spec: `PeerStatus::from_event_and_bytes_left` lives in
aquatic_ws/src/lib/common.rs, which is not among the available sources.  The
spec gives the rule: a Stopped event yields Stopped regardless of bytes
left; otherwise zero bytes left yields Seeding; otherwise Leeching. -/
def PeerStatus.from_event_and_bytes_left
    (event : AnnounceEvent) (bytes_left : Nat) : PeerStatus :=
  match event with
  | AnnounceEvent.Stopped => PeerStatus.Stopped
  | _ => if bytes_left = 0 then PeerStatus.Seeding else PeerStatus.Leeching

/-- Peer record stored in a torrent's peer set. -/
structure Peer where
  connection_meta : ConnectionMeta
  status : PeerStatus
  valid_until : Nat
  deriving DecidableEq, Repr

/-- Peer set of one torrent: association list keyed by `PeerId`, unique keys,
operated on at the first occurrence of a key. -/
abbrev PeerMap := List (PeerId × Peer)

namespace PeerMap

/-- Lookup of the first entry with the given key (`HashMap::get`). -/
def get : PeerMap → PeerId → Option Peer
  | [], _ => none
  | (k, v) :: rest, key => if k = key then some v else get rest key

/-- Insert or replace at the first occurrence of the key
(`HashMap::insert`, whose returned previous value equals `get` before). -/
def insert : PeerMap → PeerId → Peer → PeerMap
  | [], key, value => [(key, value)]
  | (k, v) :: rest, key, value =>
      if k = key then (key, value) :: rest else (k, v) :: insert rest key value

/-- Remove the first occurrence of the key (`HashMap::remove`, whose
returned removed value equals `get` before). -/
def remove : PeerMap → PeerId → PeerMap
  | [], _ => []
  | (k, v) :: rest, key =>
      if k = key then rest else (k, v) :: remove rest key

/-- Number of stored peers with the given status. -/
def countStatus (m : PeerMap) (s : PeerStatus) : Nat :=
  List.countP (fun e => decide (e.2.status = s)) m

/-- Number of stored peers (`HashMap::len`). -/
def size (m : PeerMap) : Nat := List.length m

end PeerMap

/-- Per-torrent swarm data: peer set plus incrementally maintained counters. -/
structure TorrentData where
  peers : PeerMap
  num_seeders : Nat
  num_leechers : Nat
  deriving DecidableEq

instance : Inhabited TorrentData := ⟨⟨[], 0, 0⟩⟩

/-- Swarm state: association list keyed by `InfoHash`, unique keys. -/
abbrev TorrentMap := List (InfoHash × TorrentData)

namespace TorrentMap

/-- Lookup of the first entry with the given key (`HashMap::get`). -/
def get : TorrentMap → InfoHash → Option TorrentData
  | [], _ => none
  | (k, v) :: rest, key => if k = key then some v else get rest key

/-- Value behind `entry(info_hash).or_default()`: the stored torrent data,
or fresh empty data when the hash is absent. -/
def getD (m : TorrentMap) (key : InfoHash) : TorrentData :=
  match get m key with
  | some td => td
  | none => default

/-- Insert or replace at the first occurrence of the key; writing through
the `entry` API's mutable reference is embedded as `insert` of the final
per-torrent value. -/
def insert : TorrentMap → InfoHash → TorrentData → TorrentMap
  | [], key, value => [(key, value)]
  | (k, v) :: rest, key, value =>
      if k = key then (key, value) :: rest else (k, v) :: insert rest key value

end TorrentMap

/-- Modelled from the spec: the WebSocket protocol types live in
aquatic_ws/src/lib/protocol.rs, which is not among the available sources.
An offer carried by an announce request: a WebRTC payload plus its
identifier, both treated opaquely by the handler. -/
structure AnnounceRequestOffer where
  offer : Nat
  offer_id : Nat
  deriving DecidableEq, Repr

/-- Modelled from the spec: AnnounceRequest{info_hash, peer_id, event,
bytes_left, offers?: sequence of {offer, offer_id}, answer?, to_peer_id?,
offer_id?}. -/
structure AnnounceRequest where
  info_hash : InfoHash
  peer_id : PeerId
  event : AnnounceEvent
  bytes_left : Nat
  offers : Option (List AnnounceRequestOffer)
  answer : Option Nat
  to_peer_id : Option PeerId
  offer_id : Option Nat
  deriving DecidableEq, Repr

/-- Modelled from the spec: ScrapeRequest{info_hashes: sequence}. -/
structure ScrapeRequest where
  info_hashes : List InfoHash
  deriving DecidableEq, Repr

/-- Modelled from the spec: AnnounceResponse{info_hash, complete,
incomplete, announce_interval}. -/
structure AnnounceResponse where
  info_hash : InfoHash
  complete : Nat
  incomplete : Nat
  announce_interval : Nat
  deriving DecidableEq, Repr

/-- Per-torrent entry of a scrape response. -/
structure ScrapeStatistics where
  complete : Nat
  downloaded : Nat
  incomplete : Nat
  deriving DecidableEq, Repr

/-- File mapping of a scrape response: association list keyed by
`InfoHash`, unique keys. -/
abbrev ScrapeFiles := List (InfoHash × ScrapeStatistics)

namespace ScrapeFiles

/-- Lookup of the first entry with the given key (`HashMap::get`). -/
def get : ScrapeFiles → InfoHash → Option ScrapeStatistics
  | [], _ => none
  | (k, v) :: rest, key => if k = key then some v else get rest key

/-- Insert or replace at the first occurrence of the key
(`HashMap::insert`). -/
def insert : ScrapeFiles → InfoHash → ScrapeStatistics → ScrapeFiles
  | [], key, value => [(key, value)]
  | (k, v) :: rest, key, value =>
      if k = key then (key, value) :: rest else (k, v) :: insert rest key value

end ScrapeFiles

/-- Modelled from the spec: ScrapeResponse{files: mapping info_hash to
{complete, downloaded=0, incomplete}}. -/
structure ScrapeResponse where
  files : ScrapeFiles
  deriving DecidableEq

/-- Modelled from the spec: OfferRelay{info_hash, peer_id, offer,
offer_id}, addressed to a sampled peer. -/
structure MiddlemanOfferToPeer where
  info_hash : InfoHash
  peer_id : PeerId
  offer : Nat
  offer_id : Nat
  deriving DecidableEq, Repr

/-- Modelled from the spec: AnswerRelay{peer_id, info_hash, answer,
offer_id}, addressed to the target peer. -/
structure MiddlemanAnswerToPeer where
  peer_id : PeerId
  info_hash : InfoHash
  answer : Nat
  offer_id : Nat
  deriving DecidableEq, Repr

/-- Modelled from the spec: the tagged outbound message variants consumed
by transport front-ends. -/
inductive OutMessage where
  | AnnounceResponse (r : AnnounceResponse)
  | ScrapeResponse (r : ScrapeResponse)
  | Offer (o : MiddlemanOfferToPeer)
  | Answer (a : MiddlemanAnswerToPeer)
  deriving DecidableEq

/-- Modelled from the spec: the tagged inbound request variants produced by
transport front-ends. -/
inductive InMessage where
  | AnnounceRequest (r : AnnounceRequest)
  | ScrapeRequest (r : ScrapeRequest)
  deriving DecidableEq

/-- Selector for the announce-response variant. -/
def OutMessage.isAnnounceResponseMsg : OutMessage → Bool
  | OutMessage.AnnounceResponse _ => true
  | _ => false

/-- Selector for the offer-relay variant. -/
def OutMessage.isOfferMsg : OutMessage → Bool
  | OutMessage.Offer _ => true
  | _ => false

/-- Selector for the answer-relay variant. -/
def OutMessage.isAnswerMsg : OutMessage → Bool
  | OutMessage.Answer _ => true
  | _ => false

/-- Configuration surface consumed by the core, from the fields the handler
reads (config.cleaning.max_peer_age, config.network.max_offers,
config.network.max_scrape_torrents, config.network.peer_announce_interval,
config.handlers.max_requests_per_iter,
config.handlers.channel_recv_timeout_microseconds). -/
structure Config where
  max_peer_age : Nat
  max_offers : Nat
  max_scrape_torrents : Nat
  peer_announce_interval : Nat
  max_requests_per_iter : Nat
  channel_recv_timeout_microseconds : Nat
  deriving DecidableEq, Repr

/-- Modelled from the spec: `extract_response_peers` lives in
aquatic_common, which is not among the available sources.  The spec's
contract: given a peer set and a requested count, return a random subset of
size min(requested count, peer set size).  The random choice is embedded
deterministically as the prefix of the stored entries, a realization of the
contract (every size-respecting subset is admissible). -/
def extract_response_peers (peers : PeerMap) (max_num_peers_to_take : Nat) :
    List Peer :=
  (List.take max_num_peers_to_take peers).map (fun e => e.2)

/-- Anti-spoofing check (handler.rs lines 106-110): an announce naming an
existing peer id whose stored address differs from the sender's address is
ignored. -/
def announceDropped (torrent_data : TorrentData) (sender_meta : ConnectionMeta)
    (peer_id : PeerId) : Bool :=
  match PeerMap.get torrent_data.peers peer_id with
  | some previous_peer =>
      decide (sender_meta.peer_addr ≠ previous_peer.connection_meta.peer_addr)
  | none => false

/-- Peer-set application step of announce processing (handler.rs lines
123-137): for Leeching/Seeding increment the matching counter and
insert/replace the record, for Stopped remove it; also yields
`opt_removed_peer`, the previous record returned by `HashMap::insert` or
`HashMap::remove`. -/
def announceApplyStatus (torrent_data : TorrentData) (peer_id : PeerId)
    (peer : Peer) : TorrentData × Option Peer :=
  match peer.status with
  | PeerStatus.Leeching =>
      ({ torrent_data with
            num_leechers := torrent_data.num_leechers + 1,
            peers := PeerMap.insert torrent_data.peers peer_id peer },
       PeerMap.get torrent_data.peers peer_id)
  | PeerStatus.Seeding =>
      ({ torrent_data with
            num_seeders := torrent_data.num_seeders + 1,
            peers := PeerMap.insert torrent_data.peers peer_id peer },
       PeerMap.get torrent_data.peers peer_id)
  | PeerStatus.Stopped =>
      ({ torrent_data with peers := PeerMap.remove torrent_data.peers peer_id },
       PeerMap.get torrent_data.peers peer_id)

/-- Counter decrement step (handler.rs lines 139-147): decrement the
counter matching the status of the replaced/removed record, if any. -/
def announceDecrementRemoved (torrent_data : TorrentData)
    (opt_removed_peer : Option Peer) : TorrentData :=
  match opt_removed_peer.map (fun p => p.status) with
  | some PeerStatus.Leeching =>
      { torrent_data with num_leechers := torrent_data.num_leechers - 1 }
  | some PeerStatus.Seeding =>
      { torrent_data with num_seeders := torrent_data.num_seeders - 1 }
  | _ => torrent_data

/-- Offer relay step (handler.rs lines 150-180): zip the request's offers
with peers sampled from the torrent's peer set after the update. -/
def announceOfferMessages (config : Config) (request : AnnounceRequest)
    (torrent_data : TorrentData) : List (ConnectionMeta × OutMessage) :=
  match request.offers with
  | some offers =>
      let max_num_peers_to_take := min offers.length config.max_offers
      let peers := extract_response_peers torrent_data.peers max_num_peers_to_take
      (offers.zip peers).map (fun op =>
        (op.2.connection_meta,
         OutMessage.Offer
           ⟨request.info_hash, request.peer_id, op.1.offer, op.1.offer_id⟩))
  | none => []

/-- Answer relay step (handler.rs lines 183-200): relay only when answer,
to_peer_id and offer_id are all present and the target peer exists. -/
def announceAnswerMessages (request : AnnounceRequest)
    (torrent_data : TorrentData) : List (ConnectionMeta × OutMessage) :=
  match request.answer, request.to_peer_id, request.offer_id with
  | some answer, some to_peer_id, some offer_id =>
      match PeerMap.get torrent_data.peers to_peer_id with
      | some to_peer =>
          [(to_peer.connection_meta,
            OutMessage.Answer
              ⟨request.peer_id, request.info_hash, answer, offer_id⟩)]
      | none => []
  | _, _, _ => []

/-- Body of the per-request loop of `handle_announce_requests`: the updated
swarm state and the messages pushed for this request, in push order.  The
`entry(info_hash).or_default()` call materializes the torrent entry before
the anti-spoofing check, so the (unchanged) entry is written back even on a
dropped request. -/
def processAnnounce (config : Config) (valid_until : Nat)
    (torrents : TorrentMap) (sender_meta : ConnectionMeta)
    (request : AnnounceRequest) :
    TorrentMap × List (ConnectionMeta × OutMessage) :=
  let torrent_data := TorrentMap.getD torrents request.info_hash
  if announceDropped torrent_data sender_meta request.peer_id then
    (TorrentMap.insert torrents request.info_hash torrent_data, [])
  else
    let peer_status :=
      PeerStatus.from_event_and_bytes_left request.event request.bytes_left
    let peer : Peer := ⟨sender_meta, peer_status, valid_until⟩
    let step := announceApplyStatus torrent_data request.peer_id peer
    let torrent_data := announceDecrementRemoved step.1 step.2
    let response := OutMessage.AnnounceResponse
      ⟨request.info_hash, torrent_data.num_seeders, torrent_data.num_leechers,
       config.peer_announce_interval⟩
    (TorrentMap.insert torrents request.info_hash torrent_data,
     announceOfferMessages config request torrent_data
       ++ announceAnswerMessages request torrent_data
       ++ [(sender_meta, response)])

/-- `handle_announce_requests`: process the drained announce buffer in
arrival order, threading the swarm state and accumulating the outbound
buffer.  `valid_until` is computed once per call from `now` and the
configured maximum peer age (`ValidUntil::new(config.cleaning.max_peer_age)`). -/
def handle_announce_requests (config : Config) (now : Nat)
    (torrents : TorrentMap)
    (requests : List (ConnectionMeta × AnnounceRequest)) :
    TorrentMap × List (ConnectionMeta × OutMessage) :=
  let valid_until := now + config.max_peer_age
  requests.foldl
    (fun acc mr =>
      let r := processAnnounce config valid_until acc.1 mr.1 mr.2
      (r.1, acc.2 ++ r.2))
    (torrents, [])

/-- Scrape response built for one scrape request (handler.rs lines
220-243): truncate the hash list to the configured maximum and collect
statistics for the hashes present in the swarm state. -/
def scrapeResponseFor (config : Config) (torrents : TorrentMap)
    (request : ScrapeRequest) : ScrapeResponse :=
  let num_to_take := min request.info_hashes.length config.max_scrape_torrents
  { files :=
      (request.info_hashes.take num_to_take).foldl
        (fun files info_hash =>
          match TorrentMap.get torrents info_hash with
          | some torrent_data =>
              ScrapeFiles.insert files info_hash
                ⟨torrent_data.num_seeders, 0, torrent_data.num_leechers⟩
          | none => files)
        [] }

/-- `handle_scrape_requests`: one scrape response per drained request;
the swarm state is only read. -/
def handle_scrape_requests (config : Config) (torrents : TorrentMap)
    (requests : List (ConnectionMeta × ScrapeRequest)) :
    List (ConnectionMeta × OutMessage) :=
  requests.map (fun mr =>
    (mr.1, OutMessage.ScrapeResponse (scrapeResponseFor config torrents mr.2)))

/-- One locked batch (run_request_worker lines 62-75): all buffered
announce requests, then all buffered scrape requests. -/
def processBatch (config : Config) (now : Nat) (torrents : TorrentMap)
    (announce_requests : List (ConnectionMeta × AnnounceRequest))
    (scrape_requests : List (ConnectionMeta × ScrapeRequest)) :
    TorrentMap × List (ConnectionMeta × OutMessage) :=
  let ra := handle_announce_requests config now torrents announce_requests
  (ra.1, ra.2 ++ handle_scrape_requests config ra.1 scrape_requests)

/-- One batch worth of inbound work: the instant it is processed at plus
the classified announce and scrape buffers. -/
structure Batch where
  now : Nat
  announce_requests : List (ConnectionMeta × AnnounceRequest)
  scrape_requests : List (ConnectionMeta × ScrapeRequest)

/-- Swarm state after a sequence of batches applied in order. -/
def applyBatches (config : Config) (batches : List Batch)
    (torrents : TorrentMap) : TorrentMap :=
  batches.foldl
    (fun t b => (processBatch config b.now t b.announce_requests b.scrape_requests).1)
    torrents

/-- Outcome of one receive on the inbound queue: a delivered pair, a
timeout (possible for `recv_timeout` only), or a disconnection error (every
sender handle is gone).  The handler applies `.ok()` to each receive
result, which collapses both error outcomes to `none`. -/
inductive RecvOutcome where
  | delivered (meta : ConnectionMeta) (message : InMessage)
  | timeout
  | disconnected
  deriving DecidableEq

/-- `opt_in_message`: the receive result after `.ok()`. -/
def recvOk (outcome : RecvOutcome) : Option (ConnectionMeta × InMessage) :=
  match outcome with
  | RecvOutcome.delivered meta message => some (meta, message)
  | _ => none

/-- Batch-filling for-loop of `run_request_worker` (lines 35-57): classify
up to `remaining` received messages starting at receive index `i`; on an
errored receive, a successful try-lock ends filling early (the Bool records
whether `opt_torrent_map_guard` holds the guard). -/
def fillBatch (recvs : Nat → RecvOutcome) (try_lock : Nat → Bool)
    (i remaining : Nat)
    (announce_requests : List (ConnectionMeta × AnnounceRequest))
    (scrape_requests : List (ConnectionMeta × ScrapeRequest)) :
    List (ConnectionMeta × AnnounceRequest)
      × List (ConnectionMeta × ScrapeRequest) × Bool :=
  match remaining with
  | 0 => (announce_requests, scrape_requests, false)
  | remaining + 1 =>
      match recvOk (recvs i) with
      | some (meta, InMessage.AnnounceRequest r) =>
          fillBatch recvs try_lock (i + 1) remaining
            (announce_requests ++ [(meta, r)]) scrape_requests
      | some (meta, InMessage.ScrapeRequest r) =>
          fillBatch recvs try_lock (i + 1) remaining
            announce_requests (scrape_requests ++ [(meta, r)])
      | none =>
          if try_lock i then (announce_requests, scrape_requests, true)
          else
            fillBatch recvs try_lock (i + 1) remaining
              announce_requests scrape_requests

/-- Oracles feeding one worker: per iteration and receive index, the
receive outcome; per iteration and receive index, whether the non-blocking
lock acquisition would succeed.  The blocking fallback acquisition always
succeeds eventually and is embedded as always succeeding. -/
structure WorkerEnv where
  recvs : Nat → Nat → RecvOutcome
  try_lock : Nat → Nat → Bool

/-- One iteration of `run_request_worker`'s outer `loop`: fill a batch,
acquire the torrent map (opportunistically during filling or by the
blocking fallback), process announces then scrapes under the lock, and
yield the messages handed to `out_message_sender`. -/
def workerIteration (config : Config) (env : WorkerEnv) (iter now : Nat)
    (torrents : TorrentMap) :
    TorrentMap × List (ConnectionMeta × OutMessage) :=
  let fb := fillBatch (env.recvs iter) (env.try_lock iter) 0
    config.max_requests_per_iter [] []
  processBatch config now torrents fb.1 fb.2.1

/-- Result of running the worker loop for a bounded number of modelled
iterations: either the loop body exited the loop (which would end the
worker), or the loop is still live after executing the given number of
iterations. -/
inductive WorkerOutcome where
  | terminated (torrents : TorrentMap) (iterations : Nat)
  | running (torrents : TorrentMap) (iterations : Nat)
  deriving DecidableEq

/-- `run_request_worker`'s outer `loop`, observed for `fuel` iterations.
The loop body of the source contains no break or return, so every
iteration is followed by another one; the `terminated` outcome is never
produced by this embedding because no source path produces it. -/
def runWorkerLoop (config : Config) (env : WorkerEnv) (now : Nat) :
    Nat → Nat → TorrentMap → WorkerOutcome
  | _, 0, torrents => WorkerOutcome.running torrents 0
  | iter, fuel + 1, torrents =>
      let step := workerIteration config env iter now torrents
      match runWorkerLoop config env now (iter + 1) fuel step.1 with
      | WorkerOutcome.terminated t n => WorkerOutcome.terminated t (n + 1)
      | WorkerOutcome.running t n => WorkerOutcome.running t (n + 1)

/-- Inbound-queue environment in which the sender side is disconnected:
every receive, blocking or timed, returns a disconnection error
immediately; the uncontended lock is always available. -/
def disconnectedEnv : WorkerEnv :=
  ⟨fun _ _ => RecvOutcome.disconnected, fun _ _ => true⟩

/-- Counter-consistency invariant of one torrent: each counter equals the
count of stored peers with the matching status. -/
def TorrentData.countersOk (td : TorrentData) : Prop :=
  td.num_seeders = PeerMap.countStatus td.peers PeerStatus.Seeding ∧
  td.num_leechers = PeerMap.countStatus td.peers PeerStatus.Leeching

instance (td : TorrentData) : Decidable td.countersOk :=
  inferInstanceAs (Decidable (And _ _))

/-- Counter-consistency invariant over the whole swarm state. -/
def TorrentMap.countersOk (m : TorrentMap) : Prop :=
  ∀ e ∈ m, TorrentData.countersOk e.2

instance (m : TorrentMap) : Decidable (TorrentMap.countersOk m) :=
  List.decidableBAll _ m

/-- No stored peer record has status Stopped. -/
def PeerMap.noStopped (m : PeerMap) : Prop :=
  ∀ e ∈ m, e.2.status ≠ PeerStatus.Stopped

instance (m : PeerMap) : Decidable (PeerMap.noStopped m) :=
  List.decidableBAll _ m

/-- No torrent stores a peer record with status Stopped. -/
def TorrentMap.noStoppedPeers (m : TorrentMap) : Prop :=
  ∀ e ∈ m, PeerMap.noStopped e.2.peers

instance (m : TorrentMap) : Decidable (TorrentMap.noStoppedPeers m) :=
  List.decidableBAll _ m

/-- Keys of a peer set are pairwise distinct, as in a hash map. -/
def PeerMap.keysNodup (m : PeerMap) : Prop :=
  (List.map Prod.fst m).Nodup

instance (m : PeerMap) : Decidable (PeerMap.keysNodup m) :=
  inferInstanceAs (Decidable (List.Nodup _))

namespace PeerMap

theorem get_some_mem {m : PeerMap} {k : PeerId} {p : Peer}
    (h : get m k = some p) : (k, p) ∈ m := by
  induction m with
  | nil => simp [get] at h
  | cons e rest ih =>
      obtain ⟨k', p'⟩ := e
      by_cases hk : k' = k
      · subst hk
        simp [get] at h
        simp [h]
      · simp [get, hk] at h
        exact List.mem_cons_of_mem _ (ih h)

theorem mem_insert {m : PeerMap} {k : PeerId} {v : Peer} {e : PeerId × Peer}
    (h : e ∈ insert m k v) : e = (k, v) ∨ e ∈ m := by
  induction m with
  | nil => simpa [insert] using h
  | cons e' rest ih =>
      obtain ⟨k', v'⟩ := e'
      by_cases hk : k' = k
      · subst hk
        simp [insert] at h
        rcases h with h | h
        · exact Or.inl h
        · exact Or.inr (List.mem_cons_of_mem _ h)
      · simp [insert, hk] at h
        rcases h with h | h
        · exact Or.inr (by simp [h])
        · rcases ih h with h' | h'
          · exact Or.inl h'
          · exact Or.inr (List.mem_cons_of_mem _ h')

theorem mem_remove {m : PeerMap} {k : PeerId} {e : PeerId × Peer}
    (h : e ∈ remove m k) : e ∈ m := by
  induction m with
  | nil => simp [remove] at h
  | cons e' rest ih =>
      obtain ⟨k', v'⟩ := e'
      by_cases hk : k' = k
      · subst hk
        simp [remove] at h
        exact List.mem_cons_of_mem _ h
      · simp [remove, hk] at h
        rcases h with h | h
        · simp [h]
        · exact List.mem_cons_of_mem _ (ih h)

theorem countStatus_insert_of_get_none {m : PeerMap} {k : PeerId} {v : Peer}
    (s : PeerStatus) (h : get m k = none) :
    countStatus (insert m k v) s
      = countStatus m s + (if v.status = s then 1 else 0) := by
  induction m with
  | nil => simp [insert, countStatus, List.countP_cons]
  | cons e rest ih =>
      obtain ⟨k', v'⟩ := e
      by_cases hk : k' = k
      · simp [get, hk] at h
      · simp only [get, if_neg hk] at h
        simp only [insert, if_neg hk, countStatus, List.countP_cons]
        have := ih h
        simp only [countStatus] at this
        omega

theorem countStatus_insert_of_get_some {m : PeerMap} {k : PeerId} {v p : Peer}
    (s : PeerStatus) (h : get m k = some p) :
    countStatus (insert m k v) s + (if p.status = s then 1 else 0)
      = countStatus m s + (if v.status = s then 1 else 0) := by
  induction m with
  | nil => simp [get] at h
  | cons e rest ih =>
      obtain ⟨k', v'⟩ := e
      by_cases hk : k' = k
      · subst hk
        simp [get] at h
        subst h
        simp [insert, countStatus, List.countP_cons]
        omega
      · simp only [get, if_neg hk] at h
        simp only [insert, if_neg hk, countStatus, List.countP_cons]
        have := ih h
        simp only [countStatus] at this
        omega

theorem remove_of_get_none {m : PeerMap} {k : PeerId}
    (h : get m k = none) : remove m k = m := by
  induction m with
  | nil => simp [remove]
  | cons e rest ih =>
      obtain ⟨k', v'⟩ := e
      by_cases hk : k' = k
      · simp [get, hk] at h
      · simp only [get, if_neg hk] at h
        simp [remove, hk, ih h]

theorem countStatus_remove_of_get_some {m : PeerMap} {k : PeerId} {p : Peer}
    (s : PeerStatus) (h : get m k = some p) :
    countStatus (remove m k) s + (if p.status = s then 1 else 0)
      = countStatus m s := by
  induction m with
  | nil => simp [get] at h
  | cons e rest ih =>
      obtain ⟨k', v'⟩ := e
      by_cases hk : k' = k
      · subst hk
        simp [get] at h
        subst h
        simp [remove, countStatus, List.countP_cons]
      · simp only [get, if_neg hk] at h
        simp only [remove, if_neg hk, countStatus, List.countP_cons]
        have := ih h
        simp only [countStatus] at this
        omega

theorem countStatus_pos_of_get_some {m : PeerMap} {k : PeerId} {p : Peer}
    {s : PeerStatus} (h : get m k = some p) (hs : p.status = s) :
    0 < countStatus m s := by
  have hmem := get_some_mem h
  simp only [countStatus]
  exact List.countP_pos_iff.2 ⟨(k, p), hmem, by simp [hs]⟩

theorem get_insert_self (m : PeerMap) (k : PeerId) (v : Peer) :
    get (insert m k v) k = some v := by
  induction m with
  | nil => simp [insert, get]
  | cons e rest ih =>
      obtain ⟨k', v'⟩ := e
      by_cases hk : k' = k
      · simp [insert, hk, get]
      · simp [insert, hk, get, ih]

theorem get_eq_none_of_not_mem_keys {m : PeerMap} {k : PeerId}
    (h : k ∉ List.map Prod.fst m) : get m k = none := by
  induction m with
  | nil => simp [get]
  | cons e rest ih =>
      obtain ⟨k', v'⟩ := e
      simp only [List.map_cons, List.mem_cons, not_or] at h
      have hk : ¬k' = k := fun he => h.1 he.symm
      simp [get, hk, ih h.2]

theorem get_remove_self {m : PeerMap} {k : PeerId} (h : keysNodup m) :
    get (remove m k) k = none := by
  induction m with
  | nil => simp [remove, get]
  | cons e rest ih =>
      obtain ⟨k', v'⟩ := e
      simp only [keysNodup, List.map_cons, List.nodup_cons] at h
      by_cases hk : k' = k
      · subst hk
        simp only [remove, if_pos rfl]
        exact get_eq_none_of_not_mem_keys h.1
      · simp [remove, hk, get, ih h.2]

end PeerMap

namespace TorrentMap

theorem get_mem_of_some {m : TorrentMap} {k : InfoHash} {td : TorrentData}
    (h : get m k = some td) : (k, td) ∈ m := by
  induction m with
  | nil => simp [get] at h
  | cons e rest ih =>
      obtain ⟨k', td'⟩ := e
      by_cases hk : k' = k
      · subst hk
        simp [get] at h
        simp [h]
      · simp [get, hk] at h
        exact List.mem_cons_of_mem _ (ih h)

theorem mem_of_mem_insert {m : TorrentMap} {k : InfoHash} {v : TorrentData}
    {e : InfoHash × TorrentData} (h : e ∈ insert m k v) : e = (k, v) ∨ e ∈ m := by
  induction m with
  | nil => simp [insert] at h; exact Or.inl h
  | cons e' rest ih =>
      obtain ⟨k', v'⟩ := e'
      by_cases hk : k' = k
      · subst hk
        simp [insert] at h
        rcases h with h | h
        · exact Or.inl h
        · exact Or.inr (List.mem_cons_of_mem _ h)
      · simp [insert, hk] at h
        rcases h with h | h
        · exact Or.inr (by simp [h])
        · rcases ih h with h' | h'
          · exact Or.inl h'
          · exact Or.inr (List.mem_cons_of_mem _ h')

theorem insert_get_self {m : TorrentMap} {k : InfoHash} {td : TorrentData}
    (h : get m k = some td) : insert m k td = m := by
  induction m with
  | nil => simp [get] at h
  | cons e rest ih =>
      obtain ⟨k', td'⟩ := e
      by_cases hk : k' = k
      · subst hk
        simp [get] at h
        simp [insert, h]
      · simp [get, hk] at h
        simp [insert, hk, ih h]

theorem get_insert_eq (m : TorrentMap) (k : InfoHash) (v : TorrentData) :
    get (insert m k v) k = some v := by
  induction m with
  | nil => simp [insert, get]
  | cons e rest ih =>
      obtain ⟨k', v'⟩ := e
      by_cases hk : k' = k
      · simp [insert, hk, get]
      · simp [insert, hk, get, ih]

theorem getD_insert_self (m : TorrentMap) (k : InfoHash) (v : TorrentData) :
    getD (insert m k v) k = v := by
  simp [getD, get_insert_eq]

end TorrentMap

/-- The decrement step never touches the peer set. -/
theorem announceDecrementRemoved_peers (td : TorrentData)
    (opt_removed_peer : Option Peer) :
    (announceDecrementRemoved td opt_removed_peer).peers = td.peers := by
  unfold announceDecrementRemoved
  cases opt_removed_peer with
  | none => rfl
  | some p => cases hp : p.status <;> simp [hp]

/-- Counter consistency of one torrent is preserved by the peer-set
application step followed by the decrement step. -/
theorem countersOk_announce_update (td : TorrentData) (pid : PeerId)
    (peer : Peer) (h : td.countersOk) :
    (announceDecrementRemoved (announceApplyStatus td pid peer).1
      (announceApplyStatus td pid peer).2).countersOk := by
  obtain ⟨hs, hl⟩ := h
  obtain ⟨cm, st, vu⟩ := peer
  cases hget : PeerMap.get td.peers pid with
  | none =>
      cases st <;>
        simp [announceApplyStatus, announceDecrementRemoved, hget,
          TorrentData.countersOk,
          PeerMap.countStatus_insert_of_get_none _ hget,
          PeerMap.remove_of_get_none hget, hs, hl]
  | some p =>
      have hS := PeerMap.countStatus_insert_of_get_some
        (v := ⟨cm, st, vu⟩) PeerStatus.Seeding hget
      have hL := PeerMap.countStatus_insert_of_get_some
        (v := ⟨cm, st, vu⟩) PeerStatus.Leeching hget
      have hRS := PeerMap.countStatus_remove_of_get_some PeerStatus.Seeding hget
      have hRL := PeerMap.countStatus_remove_of_get_some PeerStatus.Leeching hget
      cases st <;> cases hps : p.status <;>
        simp only [announceApplyStatus, announceDecrementRemoved, hget, hps,
          Option.map_some, TorrentData.countersOk] <;>
        simp_all <;> omega

/-- The peer set after the peer-set application step stores no Stopped
record if none was stored before: Seeding/Leeching insert a record of
matching status, Stopped only removes. -/
theorem noStopped_announceApplyStatus (td : TorrentData) (pid : PeerId)
    (peer : Peer) (h : PeerMap.noStopped td.peers) :
    PeerMap.noStopped (announceApplyStatus td pid peer).1.peers := by
  obtain ⟨cm, st, vu⟩ := peer
  cases st with
  | Seeding =>
      intro e he
      rcases PeerMap.mem_insert (by simpa [announceApplyStatus] using he) with h' | h'
      · simp [h']
      · exact h e h'
  | Leeching =>
      intro e he
      rcases PeerMap.mem_insert (by simpa [announceApplyStatus] using he) with h' | h'
      · simp [h']
      · exact h e h'
  | Stopped =>
      intro e he
      exact h e (PeerMap.mem_remove (by simpa [announceApplyStatus] using he))

/-- The looked-up-or-created torrent data satisfies counter consistency
whenever the whole swarm state does. -/
theorem countersOk_getD {m : TorrentMap} (h : TorrentMap.countersOk m)
    (k : InfoHash) : TorrentData.countersOk (TorrentMap.getD m k) := by
  unfold TorrentMap.getD
  cases hget : TorrentMap.get m k with
  | none => exact ⟨rfl, rfl⟩
  | some td => exact h _ (TorrentMap.get_mem_of_some hget)

/-- The looked-up-or-created torrent data stores no Stopped record
whenever no torrent of the swarm state does. -/
theorem noStopped_getD {m : TorrentMap} (h : TorrentMap.noStoppedPeers m)
    (k : InfoHash) : PeerMap.noStopped (TorrentMap.getD m k).peers := by
  unfold TorrentMap.getD
  cases hget : TorrentMap.get m k with
  | none => intro e he; simp [default] at he
  | some td => exact h _ (TorrentMap.get_mem_of_some hget)

/-- Counter consistency of the swarm state is preserved by one announce
request. -/
theorem countersOk_processAnnounce {config : Config} {valid_until : Nat}
    {torrents : TorrentMap} {sender_meta : ConnectionMeta}
    {request : AnnounceRequest} (h : TorrentMap.countersOk torrents) :
    TorrentMap.countersOk
      (processAnnounce config valid_until torrents sender_meta request).1 := by
  by_cases hdrop : announceDropped (TorrentMap.getD torrents request.info_hash)
      sender_meta request.peer_id = true
  · simp only [processAnnounce, hdrop, if_true]
    intro e he
    rcases TorrentMap.mem_of_mem_insert he with h' | h'
    · subst h'
      exact countersOk_getD h _
    · exact h _ h'
  · simp only [processAnnounce, if_neg hdrop]
    intro e he
    rcases TorrentMap.mem_of_mem_insert he with h' | h'
    · subst h'
      exact countersOk_announce_update _ _ _ (countersOk_getD h _)
    · exact h _ h'

/-- No-Stopped-record invariant of the swarm state is preserved by one
announce request. -/
theorem noStopped_processAnnounce {config : Config} {valid_until : Nat}
    {torrents : TorrentMap} {sender_meta : ConnectionMeta}
    {request : AnnounceRequest} (h : TorrentMap.noStoppedPeers torrents) :
    TorrentMap.noStoppedPeers
      (processAnnounce config valid_until torrents sender_meta request).1 := by
  by_cases hdrop : announceDropped (TorrentMap.getD torrents request.info_hash)
      sender_meta request.peer_id = true
  · simp only [processAnnounce, hdrop, if_true]
    intro e he
    rcases TorrentMap.mem_of_mem_insert he with h' | h'
    · subst h'
      exact noStopped_getD h _
    · exact h _ h'
  · simp only [processAnnounce, if_neg hdrop]
    intro e he
    rcases TorrentMap.mem_of_mem_insert he with h' | h'
    · subst h'
      simp only [announceDecrementRemoved_peers]
      exact noStopped_announceApplyStatus _ _ _ (noStopped_getD h _)
    · exact h _ h'

/-- The swarm state produced by `handle_announce_requests` is the fold of
`processAnnounce` over the batch, whatever messages were accumulated. -/
theorem handle_announce_requests_fst (config : Config) (valid_until : Nat)
    (requests : List (ConnectionMeta × AnnounceRequest))
    (torrents : TorrentMap) (msgs : List (ConnectionMeta × OutMessage)) :
    (requests.foldl
      (fun acc mr =>
        let r := processAnnounce config valid_until acc.1 mr.1 mr.2
        (r.1, acc.2 ++ r.2))
      (torrents, msgs)).1
    = requests.foldl
        (fun t mr => (processAnnounce config valid_until t mr.1 mr.2).1)
        torrents := by
  induction requests generalizing torrents msgs with
  | nil => rfl
  | cons mr rest ih => exact ih _ _

/-- Counter consistency is preserved by an announce batch. -/
theorem countersOk_announce_fold (config : Config) (valid_until : Nat)
    (requests : List (ConnectionMeta × AnnounceRequest))
    {torrents : TorrentMap} (h : TorrentMap.countersOk torrents) :
    TorrentMap.countersOk
      (requests.foldl
        (fun t mr => (processAnnounce config valid_until t mr.1 mr.2).1)
        torrents) := by
  induction requests generalizing torrents with
  | nil => exact h
  | cons mr rest ih => exact ih (countersOk_processAnnounce h)

/-- No-Stopped-record invariant is preserved by an announce batch. -/
theorem noStopped_announce_fold (config : Config) (valid_until : Nat)
    (requests : List (ConnectionMeta × AnnounceRequest))
    {torrents : TorrentMap} (h : TorrentMap.noStoppedPeers torrents) :
    TorrentMap.noStoppedPeers
      (requests.foldl
        (fun t mr => (processAnnounce config valid_until t mr.1 mr.2).1)
        torrents) := by
  induction requests generalizing torrents with
  | nil => exact h
  | cons mr rest ih => exact ih (noStopped_processAnnounce h)

/-- The swarm state after a batch is the announce fold: scrape processing
only reads it. -/
theorem processBatch_fst (config : Config) (now : Nat) (torrents : TorrentMap)
    (announce_requests : List (ConnectionMeta × AnnounceRequest))
    (scrape_requests : List (ConnectionMeta × ScrapeRequest)) :
    (processBatch config now torrents announce_requests scrape_requests).1
      = (handle_announce_requests config now torrents announce_requests).1 := by
  rfl

theorem OutMessage.not_announce_of_offer {x : OutMessage}
    (h : OutMessage.isOfferMsg x = true) :
    OutMessage.isAnnounceResponseMsg x = false ∧ OutMessage.isAnswerMsg x = false := by
  cases x <;> simp_all [OutMessage.isOfferMsg, OutMessage.isAnnounceResponseMsg,
    OutMessage.isAnswerMsg]

theorem OutMessage.not_announce_of_answer {x : OutMessage}
    (h : OutMessage.isAnswerMsg x = true) :
    OutMessage.isAnnounceResponseMsg x = false ∧ OutMessage.isOfferMsg x = false := by
  cases x <;> simp_all [OutMessage.isOfferMsg, OutMessage.isAnnounceResponseMsg,
    OutMessage.isAnswerMsg]

/-- Every pushed offer relay message is tagged as an offer. -/
theorem announceOfferMessages_all_offer (config : Config)
    (request : AnnounceRequest) (torrent_data : TorrentData) :
    ∀ m ∈ announceOfferMessages config request torrent_data,
      OutMessage.isOfferMsg m.2 = true := by
  intro m hm
  unfold announceOfferMessages at hm
  rcases hof : request.offers with _ | offers <;> rw [hof] at hm
  · simp at hm
  · simp at hm
    obtain ⟨a, b, _, rfl⟩ := hm
    rfl

/-- Every pushed answer relay message is tagged as an answer. -/
theorem announceAnswerMessages_all_answer (request : AnnounceRequest)
    (torrent_data : TorrentData) :
    ∀ m ∈ announceAnswerMessages request torrent_data,
      OutMessage.isAnswerMsg m.2 = true := by
  intro m hm
  unfold announceAnswerMessages at hm
  rcases ha : request.answer with _ | answer <;> rw [ha] at hm <;>
    rcases ht : request.to_peer_id with _ | tp <;> rw [ht] at hm <;>
      rcases ho : request.offer_id with _ | oid <;> rw [ho] at hm <;>
        simp at hm
  rcases hg : PeerMap.get torrent_data.peers tp with _ | to_peer <;>
    rw [hg] at hm <;> simp at hm
  simp [hm, OutMessage.isAnswerMsg]

/-- Membership characterization of the offer relay messages: each comes
from one request offer zipped with one sampled peer. -/
theorem mem_announceOfferMessages {config : Config} {request : AnnounceRequest}
    {torrent_data : TorrentData} {offers : List AnnounceRequestOffer}
    (hoffers : request.offers = some offers)
    {m : ConnectionMeta × OutMessage}
    (h : m ∈ announceOfferMessages config request torrent_data) :
    ∃ o ∈ offers,
      ∃ p ∈ extract_response_peers torrent_data.peers
          (min offers.length config.max_offers),
        m = (p.connection_meta,
             OutMessage.Offer
               ⟨request.info_hash, request.peer_id, o.offer, o.offer_id⟩) := by
  unfold announceOfferMessages at h
  rw [hoffers] at h
  simp at h
  obtain ⟨a, b, hab, rfl⟩ := h
  exact ⟨a, (List.of_mem_zip hab).1, b, (List.of_mem_zip hab).2, rfl⟩

/-- Length bound of the offer relay messages. -/
theorem announceOfferMessages_length {config : Config}
    {request : AnnounceRequest} {torrent_data : TorrentData}
    {offers : List AnnounceRequestOffer}
    (hoffers : request.offers = some offers) :
    (announceOfferMessages config request torrent_data).length
      = min offers.length
          (min (min offers.length config.max_offers)
            (PeerMap.size torrent_data.peers)) := by
  unfold announceOfferMessages
  rw [hoffers]
  simp [extract_response_peers, PeerMap.size]

/-- The answer relay list is nonempty exactly when answer, target peer id
and offer id are all present and the target peer is stored. -/
theorem announceAnswerMessages_ne_nil_iff (request : AnnounceRequest)
    (torrent_data : TorrentData) :
    announceAnswerMessages request torrent_data ≠ [] ↔
      ∃ answer to_peer_id offer_id to_peer,
        request.answer = some answer ∧ request.to_peer_id = some to_peer_id ∧
        request.offer_id = some offer_id ∧
        PeerMap.get torrent_data.peers to_peer_id = some to_peer := by
  unfold announceAnswerMessages
  rcases ha : request.answer with _ | answer <;>
    rcases ht : request.to_peer_id with _ | tp <;>
      rcases ho : request.offer_id with _ | oid <;>
        simp [ha, ht, ho]
  rcases hg : PeerMap.get torrent_data.peers tp with _ | to_peer <;> simp [hg]

/-- Message list of a non-dropped announce: offer relays, then answer
relays, then the announce response carrying the post-update counters;
`td2` is the updated torrent data as stored back into the swarm state. -/
theorem processAnnounce_messages {config : Config} {valid_until : Nat}
    {torrents : TorrentMap} {sender_meta : ConnectionMeta}
    {request : AnnounceRequest} {td2 : TorrentData}
    (hpass : announceDropped (TorrentMap.getD torrents request.info_hash)
        sender_meta request.peer_id = false)
    (htd2 : TorrentMap.getD
        (processAnnounce config valid_until torrents sender_meta request).1
        request.info_hash = td2) :
    (processAnnounce config valid_until torrents sender_meta request).2
      = announceOfferMessages config request td2
        ++ announceAnswerMessages request td2
        ++ [(sender_meta, OutMessage.AnnounceResponse
            ⟨request.info_hash, td2.num_seeders, td2.num_leechers,
             config.peer_announce_interval⟩)] := by
  simp only [processAnnounce, hpass, Bool.false_eq_true, if_false] at htd2 ⊢
  rw [TorrentMap.getD_insert_self] at htd2
  rw [htd2]

namespace ScrapeFiles

theorem get_insert_same (m : ScrapeFiles) (k : InfoHash) (v : ScrapeStatistics) :
    get (insert m k v) k = some v := by
  induction m with
  | nil => simp [insert, get]
  | cons e rest ih =>
      obtain ⟨k', v'⟩ := e
      by_cases hk : k' = k
      · simp [insert, hk, get]
      · simp [insert, hk, get, ih]

theorem get_insert_ne (m : ScrapeFiles) {k k' : InfoHash} (v : ScrapeStatistics)
    (h : k ≠ k') : get (insert m k v) k' = get m k' := by
  induction m with
  | nil => simp [insert, get, h]
  | cons e rest ih =>
      obtain ⟨k0, v0⟩ := e
      by_cases hk : k0 = k
      · subst hk
        simp [insert, get, h]
      · simp only [insert, if_neg hk]
        by_cases hk' : k0 = k'
        · simp [get, hk']
        · simp [get, hk', ih]

end ScrapeFiles

/-- Lookup in the files accumulator built by the scrape fold over a hash
list. -/
theorem scrape_fold_get (torrents : TorrentMap) (hashes : List InfoHash)
    (acc : ScrapeFiles) (ih : InfoHash) :
    ScrapeFiles.get
      (hashes.foldl
        (fun files info_hash =>
          match TorrentMap.get torrents info_hash with
          | some torrent_data =>
              ScrapeFiles.insert files info_hash
                ⟨torrent_data.num_seeders, 0, torrent_data.num_leechers⟩
          | none => files)
        acc) ih
      = if ih ∈ hashes then
          match TorrentMap.get torrents ih with
          | some torrent_data =>
              some ⟨torrent_data.num_seeders, 0, torrent_data.num_leechers⟩
          | none => ScrapeFiles.get acc ih
        else ScrapeFiles.get acc ih := by
  induction hashes generalizing acc with
  | nil => simp
  | cons h0 rest ihp =>
      rw [List.foldl_cons, ihp]
      have hstep : ∀ acc' : ScrapeFiles, ih ≠ h0 →
          ScrapeFiles.get
            (match TorrentMap.get torrents h0 with
             | some torrent_data =>
                 ScrapeFiles.insert acc' h0
                   ⟨torrent_data.num_seeders, 0, torrent_data.num_leechers⟩
             | none => acc') ih = ScrapeFiles.get acc' ih := by
        intro acc' hne
        cases hg : TorrentMap.get torrents h0 with
        | some td => simp [ScrapeFiles.get_insert_ne _ _ (fun he => hne he.symm)]
        | none => rfl
      by_cases h0ih : h0 = ih
      · subst h0ih
        cases hg : TorrentMap.get torrents h0 with
        | some td =>
            by_cases hmem : h0 ∈ rest <;>
              simp [hg, hmem, ScrapeFiles.get_insert_same]
        | none =>
            by_cases hmem : h0 ∈ rest <;> simp [hg, hmem]
      · have hne : ih ≠ h0 := fun he => h0ih he.symm
        by_cases hmem : ih ∈ rest <;>
          simp [hmem, hne, hstep _ hne]

/-- An empty batch leaves the swarm state unchanged and emits nothing. -/
theorem processBatch_nil (config : Config) (now : Nat) (torrents : TorrentMap) :
    processBatch config now torrents [] [] = (torrents, []) := rfl

/-- Under total disconnection every receive yields `none`, so the batch
buffers stay empty no matter where filling stops. -/
theorem fillBatch_disconnected (try_lock : Nat → Bool) (i remaining : Nat)
    (announce_requests : List (ConnectionMeta × AnnounceRequest))
    (scrape_requests : List (ConnectionMeta × ScrapeRequest)) :
    (fillBatch (fun _ => RecvOutcome.disconnected) try_lock i remaining
        announce_requests scrape_requests).1 = announce_requests ∧
    (fillBatch (fun _ => RecvOutcome.disconnected) try_lock i remaining
        announce_requests scrape_requests).2.1 = scrape_requests := by
  induction remaining generalizing i with
  | zero => exact ⟨rfl, rfl⟩
  | succ n ihn =>
      simp only [fillBatch, recvOk]
      cases htl : try_lock i
      · simpa [htl] using ihn (i + 1)
      · simp [htl]

/-- A worker iteration under total disconnection processes an empty batch:
the swarm state is unchanged and no message is sent. -/
theorem workerIteration_disconnected (config : Config) (iter now : Nat)
    (torrents : TorrentMap) :
    workerIteration config disconnectedEnv iter now torrents
      = (torrents, []) := by
  unfold workerIteration disconnectedEnv
  obtain ⟨h1, h2⟩ := fillBatch_disconnected (fun _ => true) 0
    config.max_requests_per_iter [] []
  simp only [h1, h2]
  exact processBatch_nil config now torrents

/-- Sample configuration for the concrete instantiations below. -/
def sampleConfig : Config := ⟨100, 2, 3, 120, 4, 50⟩

def hashA : InfoHash := ⟨[1]⟩

def hashB : InfoHash := ⟨[2]⟩

def peerIdA : PeerId := ⟨[10]⟩

def peerIdB : PeerId := ⟨[11]⟩

def metaA : ConnectionMeta := ⟨0, 7⟩

def metaB : ConnectionMeta := ⟨1, 8⟩

/-- A stored leeching peer owned by the address of `metaA`. -/
def leechingPeer : Peer := ⟨metaA, PeerStatus.Leeching, 100⟩

/-- One-torrent swarm state holding `leechingPeer` under `peerIdA`. -/
def sampleTorrents : TorrentMap := [(hashA, ⟨[(peerIdA, leechingPeer)], 0, 1⟩)]

/-- Announce with event Started and bytes still left. -/
def startedRequest : AnnounceRequest :=
  ⟨hashA, peerIdA, AnnounceEvent.Started, 5, none, none, none, none⟩

/-- Announce with event Stopped. -/
def stoppedRequest : AnnounceRequest :=
  ⟨hashA, peerIdA, AnnounceEvent.Stopped, 0, none, none, none, none⟩

/-- Announce by a second peer carrying one offer and a full answer triple
targeting `peerIdA`. -/
def offerRequest : AnnounceRequest :=
  ⟨hashA, peerIdB, AnnounceEvent.Started, 3, some [⟨41, 71⟩], some 55,
   some peerIdA, some 91⟩

/-- C1: after processing any batch of announce and scrape requests, every
torrent's num_seeders and num_leechers equal the counts of its stored
peers whose status is Seeding resp. Leeching, provided the counter
invariant held before the batch. -/
theorem counters_invariant_after_batch (config : Config) (now : Nat)
    (torrents : TorrentMap)
    (announce_requests : List (ConnectionMeta × AnnounceRequest))
    (scrape_requests : List (ConnectionMeta × ScrapeRequest))
    (h : TorrentMap.countersOk torrents) :
    TorrentMap.countersOk
      (processBatch config now torrents announce_requests scrape_requests).1 := by
  rw [processBatch_fst]
  simp only [handle_announce_requests]
  rw [handle_announce_requests_fst]
  exact countersOk_announce_fold _ _ _ h

/-- Witness for C1 at a concrete batch from the empty swarm state. -/
theorem counters_invariant_after_batch_witness :
    TorrentMap.countersOk ([] : TorrentMap) ∧
    TorrentMap.countersOk
      (processBatch sampleConfig 0 [] [(metaA, startedRequest)]
        [(metaB, ⟨[hashA, hashB]⟩)]).1 :=
  ⟨by decide,
   counters_invariant_after_batch sampleConfig 0 [] [(metaA, startedRequest)]
     [(metaB, ⟨[hashA, hashB]⟩)] (by decide)⟩

/-- C9: starting from the empty swarm state, no peer record stored in any
torrent's peer set ever has status Stopped, after every sequence of
announce and scrape batches. -/
theorem no_stopped_peer_stored (config : Config) (batches : List Batch) :
    TorrentMap.noStoppedPeers (applyBatches config batches []) := by
  have key : ∀ (bs : List Batch) (t : TorrentMap),
      TorrentMap.noStoppedPeers t →
      TorrentMap.noStoppedPeers (applyBatches config bs t) := by
    intro bs
    induction bs with
    | nil => intro t h; exact h
    | cons b rest ih =>
        intro t h
        have hstep : applyBatches config (b :: rest) t
            = applyBatches config rest
                (processBatch config b.now t b.announce_requests
                  b.scrape_requests).1 := rfl
        rw [hstep]
        apply ih
        rw [processBatch_fst]
        simp only [handle_announce_requests]
        rw [handle_announce_requests_fst]
        exact noStopped_announce_fold _ _ _ h
  exact key batches [] (fun e he => absurd he (List.not_mem_nil e))

/-- C10: whenever a replaced or removed record has status Leeching
(resp. Seeding), the matching counter is strictly positive at the moment
of the decrement, for every torrent satisfying counter consistency. -/
theorem counter_decrement_no_underflow (torrent_data : TorrentData)
    (peer_id : PeerId) (peer removed : Peer)
    (h : torrent_data.countersOk)
    (hrem : (announceApplyStatus torrent_data peer_id peer).2 = some removed) :
    (removed.status = PeerStatus.Leeching →
      0 < (announceApplyStatus torrent_data peer_id peer).1.num_leechers) ∧
    (removed.status = PeerStatus.Seeding →
      0 < (announceApplyStatus torrent_data peer_id peer).1.num_seeders) := by
  obtain ⟨hs, hl⟩ := h
  have hget : PeerMap.get torrent_data.peers peer_id = some removed := by
    obtain ⟨cm, st, vu⟩ := peer
    cases st <;> simpa [announceApplyStatus] using hrem
  constructor
  · intro hstat
    have hpos := PeerMap.countStatus_pos_of_get_some hget hstat
    obtain ⟨cm, st, vu⟩ := peer
    cases st <;> simp [announceApplyStatus] <;> omega
  · intro hstat
    have hpos := PeerMap.countStatus_pos_of_get_some hget hstat
    obtain ⟨cm, st, vu⟩ := peer
    cases st <;> simp [announceApplyStatus] <;> omega

/-- Witness for C10 at a concrete stopped announce removing a leeching
peer. -/
theorem counter_decrement_no_underflow_witness :
    TorrentData.countersOk ⟨[(peerIdA, leechingPeer)], 0, 1⟩ ∧
    (announceApplyStatus ⟨[(peerIdA, leechingPeer)], 0, 1⟩ peerIdA
        ⟨metaA, PeerStatus.Stopped, 200⟩).2 = some leechingPeer ∧
    ((leechingPeer.status = PeerStatus.Leeching →
        0 < (announceApplyStatus ⟨[(peerIdA, leechingPeer)], 0, 1⟩ peerIdA
          ⟨metaA, PeerStatus.Stopped, 200⟩).1.num_leechers) ∧
     (leechingPeer.status = PeerStatus.Seeding →
        0 < (announceApplyStatus ⟨[(peerIdA, leechingPeer)], 0, 1⟩ peerIdA
          ⟨metaA, PeerStatus.Stopped, 200⟩).1.num_seeders)) :=
  ⟨by decide, by decide,
   counter_decrement_no_underflow _ peerIdA _ leechingPeer (by decide) (by decide)⟩

/-- C2: an announce whose (info_hash, peer_id) pair already has a stored
record under a different sender address leaves the swarm state exactly as
it was and appends no message at all. -/
theorem mismatched_address_request_dropped (config : Config)
    (valid_until : Nat) (torrents : TorrentMap) (sender_meta : ConnectionMeta)
    (request : AnnounceRequest) (previous_peer : Peer)
    (hprev : PeerMap.get (TorrentMap.getD torrents request.info_hash).peers
        request.peer_id = some previous_peer)
    (haddr : sender_meta.peer_addr ≠ previous_peer.connection_meta.peer_addr) :
    processAnnounce config valid_until torrents sender_meta request
      = (torrents, []) := by
  have hdrop : announceDropped (TorrentMap.getD torrents request.info_hash)
      sender_meta request.peer_id = true := by
    simp [announceDropped, hprev, haddr]
  have hget : TorrentMap.get torrents request.info_hash
      = some (TorrentMap.getD torrents request.info_hash) := by
    cases hg : TorrentMap.get torrents request.info_hash with
    | none =>
        exfalso
        unfold TorrentMap.getD at hprev
        rw [hg] at hprev
        simp [default, PeerMap.get] at hprev
    | some td => simp [TorrentMap.getD, hg]
  simp only [processAnnounce, hdrop, if_true]
  rw [TorrentMap.insert_get_self hget]

/-- Witness for C2: a second address announces under the stored peer id. -/
theorem mismatched_address_request_dropped_witness :
    PeerMap.get (TorrentMap.getD sampleTorrents startedRequest.info_hash).peers
        startedRequest.peer_id = some leechingPeer ∧
    metaB.peer_addr ≠ leechingPeer.connection_meta.peer_addr ∧
    processAnnounce sampleConfig 100 sampleTorrents metaB startedRequest
      = (sampleTorrents, []) :=
  ⟨by decide, by decide,
   mismatched_address_request_dropped sampleConfig 100 sampleTorrents metaB
     startedRequest leechingPeer (by decide) (by decide)⟩

/-- C3: an announce with event Stopped that passes the anti-spoofing check
removes the peer id from the torrent's peer set, and exactly the counter
matching the removed record's prior status decreases by exactly one
(neither counter changes when no record existed). -/
theorem stopped_announce_removes_peer (config : Config) (valid_until : Nat)
    (torrents : TorrentMap) (sender_meta : ConnectionMeta)
    (request : AnnounceRequest) (td td2 : TorrentData)
    (htd : TorrentMap.getD torrents request.info_hash = td)
    (htd2 : TorrentMap.getD
        (processAnnounce config valid_until torrents sender_meta request).1
        request.info_hash = td2)
    (hevent : request.event = AnnounceEvent.Stopped)
    (hpass : announceDropped td sender_meta request.peer_id = false)
    (hnodup : PeerMap.keysNodup td.peers)
    (hcount : td.countersOk)
    (hnostop : PeerMap.noStopped td.peers) :
    PeerMap.get td2.peers request.peer_id = none ∧
    ((PeerMap.get td.peers request.peer_id = none ∧
        td2.num_seeders = td.num_seeders ∧
        td2.num_leechers = td.num_leechers) ∨
     (∃ p, PeerMap.get td.peers request.peer_id = some p ∧
        p.status = PeerStatus.Seeding ∧
        td2.num_seeders + 1 = td.num_seeders ∧
        td2.num_leechers = td.num_leechers) ∨
     (∃ p, PeerMap.get td.peers request.peer_id = some p ∧
        p.status = PeerStatus.Leeching ∧
        td2.num_leechers + 1 = td.num_leechers ∧
        td2.num_seeders = td.num_seeders)) := by
  subst htd
  obtain ⟨hcs, hcl⟩ := hcount
  have hstatus : PeerStatus.from_event_and_bytes_left request.event
      request.bytes_left = PeerStatus.Stopped := by
    simp [PeerStatus.from_event_and_bytes_left, hevent]
  simp only [processAnnounce, hpass, Bool.false_eq_true, if_false,
    hstatus] at htd2
  rw [TorrentMap.getD_insert_self] at htd2
  simp only [announceApplyStatus] at htd2
  subst htd2
  constructor
  · rw [announceDecrementRemoved_peers]
    exact PeerMap.get_remove_self hnodup
  · cases hget : PeerMap.get
        (TorrentMap.getD torrents request.info_hash).peers request.peer_id with
    | none =>
        left
        refine ⟨rfl, ?_, ?_⟩ <;> simp [announceDecrementRemoved, hget]
    | some p =>
        cases hps : p.status with
        | Stopped =>
            exact absurd hps
              (hnostop (request.peer_id, p) (PeerMap.get_some_mem hget))
        | Seeding =>
            right; left
            have hpos := PeerMap.countStatus_pos_of_get_some hget hps
            refine ⟨p, rfl, hps, ?_, ?_⟩ <;>
              simp [announceDecrementRemoved, hget, hps] <;> omega
        | Leeching =>
            right; right
            have hpos := PeerMap.countStatus_pos_of_get_some hget hps
            refine ⟨p, rfl, hps, ?_, ?_⟩ <;>
              simp [announceDecrementRemoved, hget, hps] <;> omega

/-- Witness for C3: the stored leeching peer stops; the peer set empties
and num_leechers goes from one to zero. -/
theorem stopped_announce_removes_peer_witness :
    TorrentMap.getD sampleTorrents stoppedRequest.info_hash
      = ⟨[(peerIdA, leechingPeer)], 0, 1⟩ ∧
    TorrentMap.getD
        (processAnnounce sampleConfig 100 sampleTorrents metaA stoppedRequest).1
        stoppedRequest.info_hash = ⟨[], 0, 0⟩ ∧
    stoppedRequest.event = AnnounceEvent.Stopped ∧
    announceDropped ⟨[(peerIdA, leechingPeer)], 0, 1⟩ metaA
      stoppedRequest.peer_id = false ∧
    (PeerMap.get ([] : PeerMap) stoppedRequest.peer_id = none ∧
     ((PeerMap.get [(peerIdA, leechingPeer)] stoppedRequest.peer_id = none ∧
         (0 : Nat) = 0 ∧ (0 : Nat) = 1) ∨
      (∃ p, PeerMap.get [(peerIdA, leechingPeer)] stoppedRequest.peer_id
          = some p ∧ p.status = PeerStatus.Seeding ∧
          0 + 1 = 0 ∧ (0 : Nat) = 1) ∨
      (∃ p, PeerMap.get [(peerIdA, leechingPeer)] stoppedRequest.peer_id
          = some p ∧ p.status = PeerStatus.Leeching ∧
          0 + 1 = 1 ∧ (0 : Nat) = 0))) :=
  ⟨by decide, by decide, by decide, by decide,
   stopped_announce_removes_peer sampleConfig 100 sampleTorrents metaA
     stoppedRequest ⟨[(peerIdA, leechingPeer)], 0, 1⟩ ⟨[], 0, 0⟩ (by decide)
     (by decide) (by decide) (by decide) (by decide) (by decide) (by decide)⟩

/-- C5: every announce that passes the anti-spoofing check produces exactly
one announce response, addressed to the sender, carrying the request's
info hash, the post-update seeder and leecher counts, and the configured
announce interval — also when the event is Stopped. -/
theorem announce_response_exactly_once (config : Config) (valid_until : Nat)
    (torrents : TorrentMap) (sender_meta : ConnectionMeta)
    (request : AnnounceRequest) (td2 : TorrentData)
    (hpass : announceDropped (TorrentMap.getD torrents request.info_hash)
        sender_meta request.peer_id = false)
    (htd2 : TorrentMap.getD
        (processAnnounce config valid_until torrents sender_meta request).1
        request.info_hash = td2) :
    List.filter (fun m => OutMessage.isAnnounceResponseMsg m.2)
        (processAnnounce config valid_until torrents sender_meta request).2
      = [(sender_meta, OutMessage.AnnounceResponse
          ⟨request.info_hash, td2.num_seeders, td2.num_leechers,
           config.peer_announce_interval⟩)] := by
  rw [processAnnounce_messages hpass htd2, List.filter_append,
    List.filter_append]
  have h1 : List.filter (fun m => OutMessage.isAnnounceResponseMsg m.2)
      (announceOfferMessages config request td2) = [] := by
    rw [List.filter_eq_nil_iff]
    intro m hm
    simp [(OutMessage.not_announce_of_offer
      (announceOfferMessages_all_offer config request td2 m hm)).1]
  have h2 : List.filter (fun m => OutMessage.isAnnounceResponseMsg m.2)
      (announceAnswerMessages request td2) = [] := by
    rw [List.filter_eq_nil_iff]
    intro m hm
    simp [(OutMessage.not_announce_of_answer
      (announceAnswerMessages_all_answer request td2 m hm)).1]
  rw [h1, h2]
  simp [OutMessage.isAnnounceResponseMsg]

/-- Witness for C5 at a Stopped announce: the response still arrives,
carrying the post-removal counts. -/
theorem announce_response_exactly_once_witness :
    announceDropped (TorrentMap.getD sampleTorrents stoppedRequest.info_hash)
      metaA stoppedRequest.peer_id = false ∧
    TorrentMap.getD
        (processAnnounce sampleConfig 100 sampleTorrents metaA
          stoppedRequest).1 stoppedRequest.info_hash = ⟨[], 0, 0⟩ ∧
    List.filter (fun m => OutMessage.isAnnounceResponseMsg m.2)
        (processAnnounce sampleConfig 100 sampleTorrents metaA
          stoppedRequest).2
      = [(metaA, OutMessage.AnnounceResponse ⟨hashA, 0, 0, 120⟩)] :=
  ⟨by decide, by decide,
   announce_response_exactly_once sampleConfig 100 sampleTorrents metaA
     stoppedRequest ⟨[], 0, 0⟩ (by decide) (by decide)⟩

/-- C6: the offer relay messages of an announce carrying offers number at
most min(request offer count, configured max_offers, post-update peer set
size), and each carries the request's info hash, the announcing peer id,
one request offer with its offer id, addressed to a sampled peer's
connection metadata. -/
theorem offer_relay_bounded (config : Config) (valid_until : Nat)
    (torrents : TorrentMap) (sender_meta : ConnectionMeta)
    (request : AnnounceRequest) (offers : List AnnounceRequestOffer)
    (td2 : TorrentData)
    (hpass : announceDropped (TorrentMap.getD torrents request.info_hash)
        sender_meta request.peer_id = false)
    (hoffers : request.offers = some offers)
    (htd2 : TorrentMap.getD
        (processAnnounce config valid_until torrents sender_meta request).1
        request.info_hash = td2) :
    (List.filter (fun m => OutMessage.isOfferMsg m.2)
        (processAnnounce config valid_until torrents sender_meta
          request).2).length
      ≤ min offers.length (min config.max_offers (PeerMap.size td2.peers)) ∧
    ∀ m ∈ List.filter (fun m => OutMessage.isOfferMsg m.2)
        (processAnnounce config valid_until torrents sender_meta request).2,
      ∃ o ∈ offers,
        ∃ p ∈ extract_response_peers td2.peers
            (min offers.length config.max_offers),
          m = (p.connection_meta, OutMessage.Offer
            ⟨request.info_hash, request.peer_id, o.offer, o.offer_id⟩) := by
  have hfilter : List.filter (fun m => OutMessage.isOfferMsg m.2)
      (processAnnounce config valid_until torrents sender_meta request).2
      = announceOfferMessages config request td2 := by
    rw [processAnnounce_messages hpass htd2, List.filter_append,
      List.filter_append]
    have h1 : List.filter (fun m => OutMessage.isOfferMsg m.2)
        (announceOfferMessages config request td2)
        = announceOfferMessages config request td2 :=
      List.filter_eq_self.2 (announceOfferMessages_all_offer config request td2)
    have h2 : List.filter (fun m => OutMessage.isOfferMsg m.2)
        (announceAnswerMessages request td2) = [] := by
      rw [List.filter_eq_nil_iff]
      intro m hm
      simp [(OutMessage.not_announce_of_answer
        (announceAnswerMessages_all_answer request td2 m hm)).2]
    have h3 : List.filter (fun m => OutMessage.isOfferMsg m.2)
        [(sender_meta, OutMessage.AnnounceResponse
          ⟨request.info_hash, td2.num_seeders, td2.num_leechers,
           config.peer_announce_interval⟩)] = [] := by
      simp [OutMessage.isOfferMsg]
    rw [h1, h2, h3]
    simp
  constructor
  · rw [hfilter, announceOfferMessages_length hoffers]
    omega
  · intro m hm
    rw [hfilter] at hm
    exact mem_announceOfferMessages hoffers hm

/-- Torrent data after `offerRequest` is applied to `sampleTorrents` with
expiry 200. -/
def updatedSampleData : TorrentData :=
  ⟨[(peerIdA, leechingPeer), (peerIdB, ⟨metaB, PeerStatus.Leeching, 200⟩)],
   0, 2⟩

/-- Witness for C6 at an announce with one offer into a two-peer swarm. -/
theorem offer_relay_bounded_witness :
    announceDropped (TorrentMap.getD sampleTorrents offerRequest.info_hash)
      metaB offerRequest.peer_id = false ∧
    offerRequest.offers = some [⟨41, 71⟩] ∧
    TorrentMap.getD
        (processAnnounce sampleConfig 200 sampleTorrents metaB offerRequest).1
        offerRequest.info_hash = updatedSampleData ∧
    (List.filter (fun m => OutMessage.isOfferMsg m.2)
        (processAnnounce sampleConfig 200 sampleTorrents metaB
          offerRequest).2).length
      ≤ min ([(⟨41, 71⟩ : AnnounceRequestOffer)]).length
          (min sampleConfig.max_offers
            (PeerMap.size updatedSampleData.peers)) :=
  ⟨by decide, by decide, by decide,
   (offer_relay_bounded sampleConfig 200 sampleTorrents metaB offerRequest
     [⟨41, 71⟩] updatedSampleData (by decide) (by decide) (by decide)).1⟩

/-- C7: an announce produces an answer relay message exactly when answer,
target peer id and offer id are all present and the target peer is stored
in the torrent at that point; in every case the announce response to the
sender is still produced. -/
theorem answer_relay_iff_target_present (config : Config) (valid_until : Nat)
    (torrents : TorrentMap) (sender_meta : ConnectionMeta)
    (request : AnnounceRequest) (td2 : TorrentData)
    (hpass : announceDropped (TorrentMap.getD torrents request.info_hash)
        sender_meta request.peer_id = false)
    (htd2 : TorrentMap.getD
        (processAnnounce config valid_until torrents sender_meta request).1
        request.info_hash = td2) :
    (List.filter (fun m => OutMessage.isAnswerMsg m.2)
        (processAnnounce config valid_until torrents sender_meta request).2
        ≠ [] ↔
      ∃ answer to_peer_id offer_id to_peer,
        request.answer = some answer ∧
        request.to_peer_id = some to_peer_id ∧
        request.offer_id = some offer_id ∧
        PeerMap.get td2.peers to_peer_id = some to_peer) ∧
    ∃ r, (sender_meta, OutMessage.AnnounceResponse r) ∈
        (processAnnounce config valid_until torrents sender_meta request).2 := by
  have hfilter : List.filter (fun m => OutMessage.isAnswerMsg m.2)
      (processAnnounce config valid_until torrents sender_meta request).2
      = announceAnswerMessages request td2 := by
    rw [processAnnounce_messages hpass htd2, List.filter_append,
      List.filter_append]
    have h1 : List.filter (fun m => OutMessage.isAnswerMsg m.2)
        (announceOfferMessages config request td2) = [] := by
      rw [List.filter_eq_nil_iff]
      intro m hm
      simp [(OutMessage.not_announce_of_offer
        (announceOfferMessages_all_offer config request td2 m hm)).2]
    have h2 : List.filter (fun m => OutMessage.isAnswerMsg m.2)
        (announceAnswerMessages request td2)
        = announceAnswerMessages request td2 :=
      List.filter_eq_self.2 (announceAnswerMessages_all_answer request td2)
    have h3 : List.filter (fun m => OutMessage.isAnswerMsg m.2)
        [(sender_meta, OutMessage.AnnounceResponse
          ⟨request.info_hash, td2.num_seeders, td2.num_leechers,
           config.peer_announce_interval⟩)] = [] := by
      simp [OutMessage.isAnswerMsg]
    rw [h1, h2, h3]
    simp
  constructor
  · rw [hfilter]
    exact announceAnswerMessages_ne_nil_iff request td2
  · rw [processAnnounce_messages hpass htd2]
    exact ⟨⟨request.info_hash, td2.num_seeders, td2.num_leechers,
      config.peer_announce_interval⟩, by simp⟩

/-- Witness for C7: the full answer triple targeting the stored peer does
produce a relay. -/
theorem answer_relay_iff_target_present_witness :
    announceDropped (TorrentMap.getD sampleTorrents offerRequest.info_hash)
      metaB offerRequest.peer_id = false ∧
    TorrentMap.getD
        (processAnnounce sampleConfig 200 sampleTorrents metaB offerRequest).1
        offerRequest.info_hash = updatedSampleData ∧
    List.filter (fun m => OutMessage.isAnswerMsg m.2)
        (processAnnounce sampleConfig 200 sampleTorrents metaB offerRequest).2
      ≠ [] := by
  refine ⟨by decide, by decide, ?_⟩
  exact (answer_relay_iff_target_present sampleConfig 200 sampleTorrents metaB
    offerRequest updatedSampleData (by decide) (by decide)).1.mpr
    ⟨55, peerIdA, 91, leechingPeer, rfl, rfl, rfl, by decide⟩

/-- C4: the scrape response maps exactly the present hashes among the
first min(request length, configured max_scrape_torrents) request hashes,
in request order, to {complete = num_seeders, downloaded = 0,
incomplete = num_leechers}; absent hashes are omitted without failing the
request, and an empty request yields an empty mapping. -/
theorem scrape_response_files (config : Config) (torrents : TorrentMap)
    (request : ScrapeRequest) :
    (∀ ih : InfoHash,
      ScrapeFiles.get (scrapeResponseFor config torrents request).files ih
        = if ih ∈ request.info_hashes.take
              (min request.info_hashes.length config.max_scrape_torrents) then
            match TorrentMap.get torrents ih with
            | some torrent_data =>
                some ⟨torrent_data.num_seeders, 0, torrent_data.num_leechers⟩
            | none => none
          else none) ∧
    (request.info_hashes = [] →
      (scrapeResponseFor config torrents request).files = []) := by
  constructor
  · intro ih
    simp only [scrapeResponseFor]
    rw [scrape_fold_get]
    by_cases hmem : ih ∈ request.info_hashes.take
        (min request.info_hashes.length config.max_scrape_torrents) <;>
      cases hg : TorrentMap.get torrents ih <;>
        simp [hmem, hg, ScrapeFiles.get]
  · intro h
    simp [scrapeResponseFor, h]

/-- C8 (amended): with the inbound queue's sender side disconnected, every
receive errors out immediately, yet the worker loop performs every
scheduled iteration with an empty batch: the loop body of
`run_request_worker` has no exit path, so the loop keeps iterating instead
of terminating. -/
theorem worker_loop_continues_after_disconnect (config : Config)
    (now iter fuel : Nat) (torrents : TorrentMap) :
    runWorkerLoop config disconnectedEnv now iter fuel torrents
      = WorkerOutcome.running torrents fuel := by
  induction fuel generalizing iter with
  | zero => rfl
  | succ n ihn =>
      simp only [runWorkerLoop, workerIteration_disconnected, ihn]

/-- C8 counterexample: after the queue is disconnected the worker still
performs three further full iterations and is still running afterwards;
the loop never terminates, contradicting the claim that disconnection ends
the worker's loop. -/
theorem worker_loop_disconnect_counterexample :
    runWorkerLoop sampleConfig disconnectedEnv 0 0 3 []
      = WorkerOutcome.running [] 3 := by
  decide

end Aquatic
